import Mathlib

/-!
Verification of the migration engine and connection lifecycle manager of the
`lib_profit_taker_database` crate (Profit-Taker-Analytics).

The crate root (`src/lib.rs`) declares only the public modules `connection`
and `schema`; the bodies of those modules are not part of the sources, so the
migration engine (Connection Provider, Migration Registry, Schema State
Tracker, Migration Runner) is modelled from the specification, faithfully to
its algorithm in section 4 and its data model in section 3.  The crate-root
public surface itself is modelled directly from `src/lib.rs`.
-/

namespace PTA

/-- Modelled from the spec: a single schema-altering statement of a
migration's `apply` body.  The storage engine provides atomic single-statement
execution; a statement either executes (producing an observable schema
effect) or errors with a cause.  The missing code is the statement type of
the `schema` module. -/
inductive Stmt where
  | exec (effect : String)
  | fail (cause : String)
deriving DecidableEq

/-- Modelled from the spec: `Migration: {version: positive integer,
description: string, apply: sequence of statements}` (spec section 3). -/
structure Migration where
  version : Nat
  description : String
  apply : List Stmt
deriving DecidableEq

/-- Modelled from the spec: the error taxonomy of spec section 7. -/
inductive DbError where
  | StoreUnavailable
  | ConfigurationRejected
  | CorruptMarker
  | MigrationFailed (version : Nat) (cause : String)
  | ConcurrentMigration
deriving DecidableEq

/-- Modelled from the spec: the observable state of the database file.
`markerRows` is the content of the Schema Version Marker slot (a list of
stored values, so that a corrupt multi-row or negative marker is
representable); `effects` records the observable schema effects of executed
statements in execution order; `appliedLog` records the versions of fully
applied (committed) migrations in order; `writes` counts persisted writes. -/
structure DBState where
  markerRows : List Int
  effects : List String
  appliedLog : List Nat
  writes : Nat
deriving DecidableEq

/-- Modelled from the spec: the state of a brand-new database file right
after first-ever open — the Schema Version Marker is created, initialized to
`0` (spec section 3, Lifecycle). -/
def openFresh : DBState :=
  { markerRows := [0], effects := [], appliedLog := [], writes := 0 }

/-- Modelled from the spec: Schema State Tracker `read(handle)` — returns `0`
if no marker exists yet, otherwise the stored value; fails with
`CorruptMarker` if more than one value is found or the stored value is not a
valid non-negative integer (spec section 4.3). -/
def Tracker.read (db : DBState) : Except DbError Nat :=
  match db.markerRows with
  | [] => .ok 0
  | [v] => if 0 ≤ v then .ok v.toNat else .error .CorruptMarker
  | _ :: _ :: _ => .error .CorruptMarker

/-- Modelled from the spec: Schema State Tracker `write(handle, version)` —
upserts the marker (spec section 4.3). -/
def Tracker.write (db : DBState) (version : Nat) : DBState :=
  { db with markerRows := [(version : Int)], writes := db.writes + 1 }

/-- Versions of a list of migrations, in list order. -/
def versionsOf (ms : List Migration) : List Nat := ms.map (·.version)

/-- Insert a migration into a version-sorted list of migrations. -/
def insertMig (m : Migration) : List Migration → List Migration
  | [] => [m]
  | x :: xs => if m.version ≤ x.version then m :: x :: xs else x :: insertMig m xs

/-- Sort migrations ascending by version (insertion sort). -/
def sortMigs : List Migration → List Migration
  | [] => []
  | x :: xs => insertMig x (sortMigs xs)

/-- Modelled from the spec: the Migration Registry, an ordered immutable
catalog of migrations ascending by version (spec section 4.2). -/
structure Registry where
  migrations : List Migration
deriving DecidableEq

/-- Modelled from the spec: the construction-time invariant of the Migration
Registry — versions strictly ascending (hence no two share a version), every
version positive, and, unless a squashed baseline is declared, no gap
relative to version `0` (the version sequence is exactly `1, …, n`). -/
def validSorted (s : List Migration) (hasBaseline : Bool) : Prop :=
  (versionsOf s).Pairwise (· < ·) ∧ (∀ m ∈ s, 0 < m.version) ∧
    (hasBaseline = true ∨ versionsOf s = List.range' 1 s.length)

instance (s : List Migration) (b : Bool) : Decidable (validSorted s b) := by
  unfold validSorted; exact inferInstance

/-- Modelled from the spec: Registry construction — sorts the registered
migrations ascending by version and fails fast (`none`: the process cannot
start) if two migrations share a version, a version is non-positive, or the
sequence has a gap starting above `0` with no declared baseline
(spec section 4.2). -/
def Registry.build (ms : List Migration) (hasBaseline : Bool) : Option Registry :=
  if validSorted (sortMigs ms) hasBaseline then some ⟨sortMigs ms⟩ else none

/-- Modelled from the spec: `all() -> ordered sequence of Migration,
ascending by version`. -/
def Registry.all (r : Registry) : List Migration := r.migrations

/-- Modelled from the spec: `latestVersion() -> integer`, the largest
registered version (`0` for an empty registry). -/
def Registry.latestVersion (r : Registry) : Nat :=
  r.migrations.foldr (fun m acc => max m.version acc) 0

/-- Modelled from the spec: apply the statements of one migration of version
`v`; each executed statement's effect becomes observable, and the first
failing statement aborts with `MigrationFailed{version, cause}`
(spec section 4.4, steps 4b and 4c). -/
def applyStmts (v : Nat) (stmts : List Stmt) (db : DBState) : Except DbError DBState :=
  match stmts with
  | [] => .ok db
  | .exec e :: rest =>
      applyStmts v rest
        { db with effects := db.effects ++ [e], writes := db.writes + 1 }
  | .fail c :: _ => .error (.MigrationFailed v c)

/-- Modelled from the spec: apply a batch of pending migrations in list
order, recording each fully applied migration's version (spec section 4.4,
step 4b). -/
def applyMigrations (ms : List Migration) (db : DBState) : Except DbError DBState :=
  match ms with
  | [] => .ok db
  | m :: rest =>
    match applyStmts m.version m.apply db with
    | .error e => .error e
    | .ok db1 => applyMigrations rest { db1 with appliedLog := db1.appliedLog ++ [m.version] }

/-- Modelled from the spec: the pending set `{ m in registry.all() |
m.version > current }` (spec section 4.4, step 2). -/
def pendingFor (r : Registry) (current : Nat) : List Migration :=
  r.migrations.filter (fun m => current < m.version)

/-- Modelled from the spec: Migration Runner `run(handle, registry)` (spec
section 4.4).  Returns the outcome together with the post-call database
state; on any failure the whole batch is rolled back atomically, so the
returned state is the pre-call state.  On success with a non-empty pending
set, the marker is written to the highest applied version as the last
operation of the atomic unit. -/
def Runner.run (db : DBState) (r : Registry) : Except DbError Nat × DBState :=
  match Tracker.read db with
  | .error e => (.error e, db)
  | .ok current =>
    match (pendingFor r current).getLast? with
    | none => (.ok current, db)
    | some lastM =>
      match applyMigrations (pendingFor r current) db with
      | .error e => (.error e, db)
      | .ok db1 => (.ok lastM.version, Tracker.write db1 lastM.version)

/-- Version of the last fully applied migration recorded in the database
(`0` when none has been applied). -/
def lastApplied (db : DBState) : Nat := db.appliedLog.getLast?.getD 0

/-- Database states reachable from a fresh database by runs of the Migration
Runner with validly constructed registries. -/
inductive Reachable : DBState → Prop where
  | base : Reachable openFresh
  | step (db : DBState) (ms : List Migration) (b : Bool) (r : Registry)
      (out : Except DbError Nat) (db' : DBState) :
      Reachable db → Registry.build ms b = some r →
      Runner.run db r = (out, db') → Reachable db'

/-- Public modules exported from the crate root, from `src/lib.rs`
(`pub mod connection; pub mod schema;`). -/
def crateRootPublicModules : List String := ["connection", "schema"]

/-! Concrete fixtures used by witnesses and concrete test properties. -/

/-- Modelled from the spec: a migration of version 1 creating the first
table. -/
def mig1 : Migration := ⟨1, "v1", [.exec "e1"]⟩

/-- Modelled from the spec: a migration of version 2. -/
def mig2 : Migration := ⟨2, "v2", [.exec "e2"]⟩

/-- Modelled from the spec: a migration of version 3. -/
def mig3 : Migration := ⟨3, "v3", [.exec "e3"]⟩

/-- Modelled from the spec: a squashed-baseline migration of version 5. -/
def migBase5 : Migration := ⟨5, "baseline", [.exec "e5"]⟩

/-- Modelled from the spec: a version-1 migration with a failing
statement. -/
def migBad : Migration := ⟨1, "bad", [.fail "boom"]⟩

/-- Database already at marker 5. -/
def dbAt5 : DBState := ⟨[5], ["e5"], [5], 2⟩

/-- Database whose marker (7) is ahead of every registry in the fixtures. -/
def dbAt7 : DBState := ⟨[7], [], [7], 2⟩

/-! Helper lemmas about sorting and registry construction. -/

theorem insertMig_perm (m : Migration) (l : List Migration) :
    (insertMig m l).Perm (m :: l) := by
  induction l with
  | nil => exact List.Perm.refl _
  | cons x xs ih =>
    unfold insertMig
    split
    · exact List.Perm.refl _
    · exact List.Perm.trans (List.Perm.cons x ih) (List.Perm.swap m x xs)

theorem sortMigs_perm (l : List Migration) : (sortMigs l).Perm l := by
  induction l with
  | nil => exact List.Perm.refl _
  | cons x xs ih =>
    exact List.Perm.trans (insertMig_perm x (sortMigs xs)) (List.Perm.cons x ih)

theorem mem_sortMigs (m : Migration) (l : List Migration) :
    m ∈ sortMigs l ↔ m ∈ l :=
  (sortMigs_perm l).mem_iff

theorem build_eq_some {ms : List Migration} {b : Bool} {r : Registry}
    (h : Registry.build ms b = some r) :
    r.migrations = sortMigs ms ∧ validSorted r.migrations b := by
  unfold Registry.build at h
  split at h
  · cases h
    exact ⟨rfl, by assumption⟩
  · cases h

theorem build_eq_none {ms : List Migration} {b : Bool}
    (h : ¬ validSorted (sortMigs ms) b) : Registry.build ms b = none := by
  unfold Registry.build
  exact if_neg h

theorem valid_pairwise {s : List Migration} {b : Bool} (h : validSorted s b) :
    s.Pairwise (fun a c => a.version < c.version) := by
  have := h.1
  rwa [versionsOf, List.pairwise_map] at this

/-- Maximum over a migration list, matching `Registry.latestVersion`. -/
theorem mem_le_latest {r : Registry} {m : Migration} (h : m ∈ r.migrations) :
    m.version ≤ r.latestVersion := by
  obtain ⟨l⟩ := r
  induction l with
  | nil => cases h
  | cons a t ih =>
    cases h with
    | head => exact Nat.le_max_left _ _
    | tail _ h => exact Nat.le_trans (ih h) (Nat.le_max_right _ _)

theorem latest_mem {r : Registry} (h : r.migrations ≠ []) :
    ∃ m ∈ r.migrations, m.version = r.latestVersion := by
  obtain ⟨l⟩ := r
  induction l with
  | nil => exact absurd rfl h
  | cons a t ih =>
    cases t with
    | nil =>
      exact ⟨a, List.mem_singleton_self a, (Nat.max_eq_left (Nat.zero_le _)).symm⟩
    | cons c t' =>
      obtain ⟨m, hm, hv⟩ := ih (by simp)
      by_cases hc : Registry.latestVersion ⟨c :: t'⟩ ≤ a.version
      · exact ⟨a, List.mem_cons_self a _,
          (Nat.max_eq_left hc).symm⟩
      · refine ⟨m, List.mem_cons_of_mem a hm, ?_⟩
        have : Registry.latestVersion ⟨a :: c :: t'⟩
            = Registry.latestVersion ⟨c :: t'⟩ :=
          Nat.max_eq_right (Nat.le_of_not_le hc)
        rw [this]; exact hv

theorem pairwise_getLast_le {l : List Migration}
    (hp : l.Pairwise (fun a c => a.version < c.version))
    {x lastM : Migration} (hx : x ∈ l) (hl : l.getLast? = some lastM) :
    x.version ≤ lastM.version := by
  induction l with
  | nil => cases hx
  | cons a t ih =>
    cases t with
    | nil =>
      cases hx with
      | head => cases hl; exact Nat.le_refl _
      | tail _ hx => cases hx
    | cons c t' =>
      have hl' : (c :: t').getLast? = some lastM := hl
      cases hx with
      | head =>
        have hmem : lastM ∈ c :: t' := by
          rw [List.getLast?_eq_getLast_of_ne_nil (by simp)] at hl'
          injection hl' with hl''
          exact hl'' ▸ List.getLast_mem _
        exact Nat.le_of_lt ((List.pairwise_cons.mp hp).1 lastM hmem)
      | tail _ hx => exact ih (List.pairwise_cons.mp hp).2 hx hl'

/-! Helper lemmas about statement and batch application. -/

theorem applyStmts_hasFail {stmts : List Stmt} (v : Nat) (db : DBState)
    (h : ∃ c, Stmt.fail c ∈ stmts) :
    ∃ c, applyStmts v stmts db = .error (.MigrationFailed v c) := by
  induction stmts generalizing db with
  | nil => obtain ⟨c, hc⟩ := h; cases hc
  | cons s rest ih =>
    cases s with
    | exec e =>
      obtain ⟨c, hc⟩ := h
      have hrest : Stmt.fail c ∈ rest := by
        cases hc with
        | tail _ hr => exact hr
      exact ih _ ⟨c, hrest⟩
    | fail c => exact ⟨c, rfl⟩

theorem applyStmts_noFail {stmts : List Stmt} (v : Nat) (db : DBState)
    (h : ∀ c, Stmt.fail c ∉ stmts) :
    ∃ db', applyStmts v stmts db = .ok db' := by
  induction stmts generalizing db with
  | nil => exact ⟨db, rfl⟩
  | cons s rest ih =>
    cases s with
    | exec e =>
      exact ih _ (fun c hc => h c (List.mem_cons_of_mem _ hc))
    | fail c => exact absurd (List.mem_cons_self _ _) (h c)

theorem applyStmts_ok_appliedLog {stmts : List Stmt} {v : Nat}
    {db db' : DBState} (h : applyStmts v stmts db = .ok db') :
    db'.appliedLog = db.appliedLog := by
  induction stmts generalizing db with
  | nil => cases h; rfl
  | cons s rest ih =>
    cases s with
    | exec e =>
      simp only [applyStmts] at h
      have := ih h
      exact this
    | fail c => cases h

theorem applyMigrations_ok_appliedLog {ms : List Migration}
    {db db' : DBState} (h : applyMigrations ms db = .ok db') :
    db'.appliedLog = db.appliedLog ++ versionsOf ms := by
  induction ms generalizing db with
  | nil => cases h; simp [versionsOf]
  | cons m rest ih =>
    unfold applyMigrations at h
    cases hstep : applyStmts m.version m.apply db with
    | error e => rw [hstep] at h; cases h
    | ok db1 =>
      rw [hstep] at h
      have := ih h
      rw [this]
      have hlog := applyStmts_ok_appliedLog hstep
      simp [hlog, versionsOf]

theorem applyMigrations_hasFail {ms : List Migration} (db : DBState)
    (h : ∃ m ∈ ms, ∃ c, Stmt.fail c ∈ m.apply) :
    ∃ v c, applyMigrations ms db = .error (.MigrationFailed v c) := by
  induction ms generalizing db with
  | nil => obtain ⟨m, hm, _⟩ := h; cases hm
  | cons m rest ih =>
    by_cases hm : ∃ c, Stmt.fail c ∈ m.apply
    · obtain ⟨c, hc⟩ := applyStmts_hasFail m.version db hm
      refine ⟨m.version, c, ?_⟩
      unfold applyMigrations
      rw [hc]
    · obtain ⟨m', hm', hc'⟩ := h
      have hm'rest : m' ∈ rest := by
        cases hm' with
        | head => exact absurd hc' hm
        | tail _ hr => exact hr
      obtain ⟨db1, hok⟩ :=
        applyStmts_noFail m.version db (fun c hc => hm ⟨c, hc⟩)
      obtain ⟨v, c, herr⟩ := ih
        { db1 with appliedLog := db1.appliedLog ++ [m.version] }
        ⟨m', hm'rest, hc'⟩
      refine ⟨v, c, ?_⟩
      unfold applyMigrations
      rw [hok]
      exact herr

theorem mem_of_getLast?_eq {α : Type _} {l : List α} {a : α}
    (h : l.getLast? = some a) : a ∈ l := by
  cases l with
  | nil => cases h
  | cons x xs =>
    rw [List.getLast?_eq_getLast_of_ne_nil (by simp)] at h
    injection h with h
    exact h ▸ List.getLast_mem _

/-- Case analysis on one call of the Migration Runner: either the database
state is returned unchanged, or all pending statements were applied
successfully and the final operation of the unit was the marker write. -/
theorem run_shape (db : DBState) (r : Registry) (out : Except DbError Nat)
    (db' : DBState) (h : Runner.run db r = (out, db')) :
    db' = db ∨ ∃ current db1 lastM,
      Tracker.read db = .ok current ∧
      (pendingFor r current).getLast? = some lastM ∧
      applyMigrations (pendingFor r current) db = .ok db1 ∧
      db' = Tracker.write db1 lastM.version ∧ out = .ok lastM.version := by
  unfold Runner.run at h
  split at h
  · left; exact (Prod.mk.injEq _ _ _ _ ▸ h).2.symm
  · split at h
    · left; exact (Prod.mk.injEq _ _ _ _ ▸ h).2.symm
    · split at h
      · left; exact (Prod.mk.injEq _ _ _ _ ▸ h).2.symm
      · right
        refine ⟨_, _, _, by assumption, by assumption, by assumption,
          (Prod.mk.injEq _ _ _ _ ▸ h).2.symm,
          (Prod.mk.injEq _ _ _ _ ▸ h).1.symm⟩

/-! Claim theorems. -/

/-- C7: Schema State Tracker `read(handle)` returns 0 if no marker exists yet
(a fresh database), returns the stored value otherwise, and fails with
`CorruptMarker` exactly when more than one value is found or the stored value
is not a valid non-negative integer. -/
theorem tracker_read_contract (db : DBState) :
    (db.markerRows = [] → Tracker.read db = .ok 0) ∧
    (∀ v : Int, db.markerRows = [v] → 0 ≤ v → Tracker.read db = .ok v.toNat) ∧
    (Tracker.read db = .error .CorruptMarker ↔
      2 ≤ db.markerRows.length ∨ ∃ v : Int, db.markerRows = [v] ∧ v < 0) := by
  obtain ⟨rows, es, log, w⟩ := db
  refine ⟨?_, ?_, ?_⟩
  · intro h
    simp only at h
    subst h
    rfl
  · intro v h hv
    simp only at h
    subst h
    simp [Tracker.read, hv]
  · match rows with
    | [] => simp [Tracker.read]
    | [v] =>
      by_cases hv : 0 ≤ v
      · simp only [Tracker.read, if_pos hv]
        constructor
        · intro h; cases h
        · rintro (h | ⟨v', hv', hneg⟩)
          · simp at h
          · injection hv' with h1 h2
            subst h1
            exact absurd hv (Int.not_le.mpr hneg)
      · simp only [Tracker.read, if_neg hv]
        constructor
        · intro _
          exact Or.inr ⟨v, rfl, Int.not_le.mp hv⟩
        · intro _; trivial
    | a :: c :: t =>
      simp only [Tracker.read]
      constructor
      · intro _
        left
        simp
      · intro _; trivial

/-- C7 witness: on a concrete fresh database with no marker row, read
returns 0. -/
theorem tracker_read_contract_witness :
    Tracker.read ⟨[], [], [], 0⟩ = .ok 0 :=
  (tracker_read_contract ⟨[], [], [], 0⟩).1 rfl

/-- C2: when the tracked version already equals the registry's latest
version, `run` returns the current version with the database unchanged
(zero writes), and a second call returns the same version and again leaves
the database unchanged. -/
theorem run_idempotent_when_current (db : DBState) (r : Registry) (v : Nat)
    (hread : Tracker.read db = .ok v) (hv : v = r.latestVersion) :
    Runner.run db r = (.ok v, db) ∧
      Runner.run (Runner.run db r).2 r = Runner.run db r := by
  have hpend : pendingFor r v = [] := by
    unfold pendingFor
    rw [List.filter_eq_nil_iff]
    intro m hm
    simp only [decide_eq_true_eq, Nat.not_lt]
    exact hv ▸ mem_le_latest hm
  have h1 : Runner.run db r = (.ok v, db) := by
    simp [Runner.run, hread, hpend]
  exact ⟨h1, by rw [h1]; exact h1⟩

/-- C2 witness: a database already at marker 5 run against a registry whose
latest version is 5 returns 5 and is left unchanged, twice in a row. -/
theorem run_idempotent_when_current_witness :
    Runner.run dbAt5 ⟨[migBase5]⟩ = (.ok 5, dbAt5) ∧
      Runner.run (Runner.run dbAt5 ⟨[migBase5]⟩).2 ⟨[migBase5]⟩
        = Runner.run dbAt5 ⟨[migBase5]⟩ :=
  run_idempotent_when_current dbAt5 ⟨[migBase5]⟩ 5 rfl rfl

/-- C1: if any statement of any pending migration fails, the whole batch is
aborted: `run` reports `MigrationFailed{version, cause}` and returns the
pre-call database state unchanged — the marker keeps its pre-run value and
no statement effect of any pending migration is observable. -/
theorem run_atomic_on_failure (db : DBState) (r : Registry) (current : Nat)
    (hread : Tracker.read db = .ok current)
    (hfail : ∃ m ∈ pendingFor r current, ∃ c, Stmt.fail c ∈ m.apply) :
    ∃ v cause, Runner.run db r = (.error (.MigrationFailed v cause), db) := by
  obtain ⟨m, hm, hc⟩ := hfail
  obtain ⟨v, c, herr⟩ := applyMigrations_hasFail db ⟨m, hm, hc⟩
  have hne : pendingFor r current ≠ [] := List.ne_nil_of_mem hm
  obtain ⟨lastM, hlast⟩ : ∃ lm, (pendingFor r current).getLast? = some lm := by
    cases hl : (pendingFor r current).getLast? with
    | none => exact absurd (List.getLast?_eq_none_iff.mp hl) hne
    | some lm => exact ⟨lm, rfl⟩
  refine ⟨v, c, ?_⟩
  simp [Runner.run, hread, hlast, herr]

/-- C1 witness: a pending version-1 migration with a failing statement makes
`run` fail with `MigrationFailed` and leave the fresh database unchanged. -/
theorem run_atomic_on_failure_witness :
    ∃ v cause, Runner.run openFresh ⟨[migBad]⟩
      = (.error (.MigrationFailed v cause), openFresh) :=
  run_atomic_on_failure openFresh ⟨[migBad]⟩ 0 rfl
    ⟨migBad, by decide, "boom", by decide⟩

/-- C3: the Runner applies pending migrations in strictly ascending version
order — the pending set of any validly built registry is strictly ascending
by version, no migration above the current version is ever skipped, and for
migrations of versions 1, 2, 3 the built registry (hence the application
order) is [1, 2, 3] regardless of registration order. -/
theorem run_order_ascending :
    (∀ ms b r current, Registry.build ms b = some r →
      (versionsOf (pendingFor r current)).Pairwise (· < ·)) ∧
    (∀ (r : Registry) (current : Nat) (m : Migration),
      m ∈ r.migrations → current < m.version → m ∈ pendingFor r current) ∧
    Registry.build [mig3, mig2, mig1] false
      = Registry.build [mig1, mig2, mig3] false ∧
    Registry.build [mig1, mig2, mig3] false = some ⟨[mig1, mig2, mig3]⟩ := by
  refine ⟨?_, ?_, by decide, by decide⟩
  · intro ms b r current h
    have hpw := valid_pairwise (build_eq_some h).2
    have hsub : List.Sublist (pendingFor r current) r.migrations :=
      List.filter_sublist r.migrations
    have : (pendingFor r current).Pairwise (fun a c => a.version < c.version) :=
      hpw.sublist hsub
    rwa [versionsOf, List.pairwise_map]
  · intro r current m hm hv
    unfold pendingFor
    rw [List.mem_filter]
    exact ⟨hm, by simpa using hv⟩

/-- C3 witness: the pending set of the registry built from migrations
registered in the order [3, 2, 1] is strictly ascending by version. -/
theorem run_order_ascending_witness :
    (versionsOf (pendingFor ⟨[mig1, mig2, mig3]⟩ 0)).Pairwise (· < ·) :=
  run_order_ascending.1 [mig3, mig2, mig1] false ⟨[mig1, mig2, mig3]⟩ 0
    (by decide)

/-- C6: Migration Registry construction fails fast whenever two migrations
share a version, or any version is non-positive, or the version sequence has
a gap starting above 0 with no declared baseline; a successfully constructed
registry's `all()` is ascending by version. -/
theorem registry_build_contract :
    (∀ ms b r, Registry.build ms b = some r →
      (versionsOf r.all).Pairwise (· < ·)) ∧
    (∀ ms b, ¬ (versionsOf ms).Nodup → Registry.build ms b = none) ∧
    (∀ ms b, (∃ m ∈ ms, m.version = 0) → Registry.build ms b = none) ∧
    (∀ ms (v : Nat), 0 < v → (∃ m ∈ ms, v < m.version) →
      (∀ m ∈ ms, m.version ≠ v) → Registry.build ms false = none) := by
  refine ⟨?_, ?_, ?_, ?_⟩
  · intro ms b r h
    exact (build_eq_some h).2.1
  · intro ms b hdup
    apply build_eq_none
    intro hval
    have hnd : (versionsOf (sortMigs ms)).Nodup :=
      hval.1.imp Nat.ne_of_lt
    have hperm : (versionsOf (sortMigs ms)).Perm (versionsOf ms) :=
      (sortMigs_perm ms).map _
    exact hdup (hperm.nodup_iff.mp hnd)
  · intro ms b hzero
    apply build_eq_none
    intro hval
    obtain ⟨m, hm, h0⟩ := hzero
    have := hval.2.1 m ((mem_sortMigs m ms).mpr hm)
    omega
  · intro ms v hvpos hbig hmiss
    apply build_eq_none
    intro hval
    rcases hval.2.2 with hb | hrange
    · cases hb
    · obtain ⟨w, hw, hwv⟩ := hbig
      have hwmem : w.version ∈ versionsOf (sortMigs ms) :=
        List.mem_map_of_mem _ ((mem_sortMigs w ms).mpr hw)
      rw [hrange, List.mem_range'] at hwmem
      obtain ⟨i, hi, hwi⟩ := hwmem
      have hvmem : v ∈ versionsOf (sortMigs ms) := by
        rw [hrange, List.mem_range']
        exact ⟨v - 1, by omega, by omega⟩
      obtain ⟨m', hm', hm'v⟩ := List.mem_map.mp hvmem
      exact hmiss m' ((mem_sortMigs m' ms).mp hm') hm'v

/-- C6 witness: two migrations sharing version 1 make construction fail. -/
theorem registry_build_contract_witness :
    Registry.build [mig1, ⟨1, "dup", [.exec "d"]⟩] false = none :=
  registry_build_contract.2.1 [mig1, ⟨1, "dup", [.exec "d"]⟩] false (by decide)

/-- C8: on first-ever open the marker is initialized to 0, and running a
fresh database against a registry of versions [1, 2] yields marker 2 with
both migrations' schema effects present. -/
theorem fresh_database_migrates_to_latest :
    openFresh.markerRows = [0] ∧
    Registry.build [mig1, mig2] false = some ⟨[mig1, mig2]⟩ ∧
    Runner.run openFresh ⟨[mig1, mig2]⟩
      = (.ok 2, ⟨[2], ["e1", "e2"], [1, 2], 3⟩) := by
  refine ⟨rfl, by decide, ?_⟩
  rfl

/-- C10: the crate root's public interface is exactly the two modules
`connection` and `schema`; no insert, fetch, query, migration-runner,
registry, or tracker item — and no `ensureSchemaCurrent` entry point — is
exported from the crate root. -/
theorem crate_root_public_surface :
    crateRootPublicModules = ["connection", "schema"] ∧
    crateRootPublicModules.length = 2 ∧
    "insert" ∉ crateRootPublicModules ∧
    "fetch" ∉ crateRootPublicModules ∧
    "query" ∉ crateRootPublicModules ∧
    "migration_runner" ∉ crateRootPublicModules ∧
    "registry" ∉ crateRootPublicModules ∧
    "tracker" ∉ crateRootPublicModules ∧
    "ensureSchemaCurrent" ∉ crateRootPublicModules := by
  refine ⟨rfl, rfl, ?_, ?_, ?_, ?_, ?_, ?_, ?_⟩ <;> decide

theorem read_after_write (db : DBState) (n : Nat) :
    Tracker.read (Tracker.write db n) = .ok n := by
  simp [Tracker.read, Tracker.write]

/-- C5 counterexample: a database whose marker (7) is ahead of a validly
built registry whose latest version is 5 makes `run` succeed returning 7,
leaving the marker at 7 — not the registry's latest version 5. -/
theorem run_success_not_always_latest :
    Registry.build [migBase5] true = some ⟨[migBase5]⟩ ∧
    Runner.run dbAt7 ⟨[migBase5]⟩ = (.ok 7, dbAt7) ∧
    Registry.latestVersion ⟨[migBase5]⟩ = 5 ∧ (7 : Nat) ≠ 5 :=
  ⟨by decide, rfl, rfl, by decide⟩

/-- C5 (amended): for every successful invocation of `run` on a validly
built registry in which the pre-run tracked version does not exceed the
registry's latest version, the resulting marker equals the registry's latest
version at call time — never less, never more — and `run` returns that new
version. -/
theorem run_success_reaches_latest {ms : List Migration} {b : Bool}
    {r : Registry} {db db' : DBState} {v newV : Nat}
    (hbuild : Registry.build ms b = some r)
    (hread : Tracker.read db = .ok v)
    (hle : v ≤ r.latestVersion)
    (hrun : Runner.run db r = (.ok newV, db')) :
    newV = r.latestVersion ∧ Tracker.read db' = .ok r.latestVersion := by
  unfold Runner.run at hrun
  split at hrun
  next e heq => rw [hread] at heq; cases heq
  next current heq =>
    rw [hread] at heq
    injection heq with hcv
    subst hcv
    split at hrun
    next hnone =>
      injection hrun with h1 h2
      injection h1 with h1
      subst h1
      subst h2
      have hpend : pendingFor r v = [] := List.getLast?_eq_none_iff.mp hnone
      have hlatest : r.latestVersion = v := by
        by_cases hm : r.migrations = []
        · have : r.latestVersion = 0 := by
            obtain ⟨l⟩ := r
            simp only at hm
            subst hm
            rfl
          omega
        · obtain ⟨m, hmm, hmv⟩ := latest_mem hm
          have hnotp := List.filter_eq_nil_iff.mp hpend m hmm
          simp only [decide_eq_true_eq, Nat.not_lt] at hnotp
          omega
      exact ⟨hlatest.symm, by rw [hlatest]; exact hread⟩
    next lastM hlast =>
      split at hrun
      next e herr =>
        injection hrun with h1 h2
        cases h1
      next db1 happ =>
        injection hrun with h1 h2
        injection h1 with h1
        subst h1
        subst h2
        have hlastMem : lastM ∈ pendingFor r v := mem_of_getLast?_eq hlast
        have hsub : List.Sublist (pendingFor r v) r.migrations :=
          List.filter_sublist r.migrations
        have hle1 : lastM.version ≤ r.latestVersion :=
          mem_le_latest (hsub.mem hlastMem)
        have hvlt : v < lastM.version := by
          have := List.of_mem_filter hlastMem
          simpa using this
        have hmne : r.migrations ≠ [] :=
          List.ne_nil_of_mem (hsub.mem hlastMem)
        obtain ⟨mL, hmL, hmLv⟩ := latest_mem hmne
        have hmLpend : mL ∈ pendingFor r v := by
          unfold pendingFor
          rw [List.mem_filter]
          exact ⟨hmL, by simp; omega⟩
        have hpw : (pendingFor r v).Pairwise
            (fun a c => a.version < c.version) :=
          (valid_pairwise (build_eq_some hbuild).2).sublist hsub
        have hge : mL.version ≤ lastM.version :=
          pairwise_getLast_le hpw hmLpend hlast
        have heqv : lastM.version = r.latestVersion := by omega
        exact ⟨heqv, by rw [← heqv]; exact read_after_write db1 lastM.version⟩

/-- C5 (amended) witness: a fresh database run against a registry of the
single migration of version 1 ends with the marker at the registry's latest
version 1, which is also the returned version. -/
theorem run_success_reaches_latest_witness :
    (1 : Nat) = Registry.latestVersion ⟨[mig1]⟩ ∧
      Tracker.read ⟨[1], ["e1"], [1], 2⟩
        = .ok (Registry.latestVersion ⟨[mig1]⟩) :=
  @run_success_reaches_latest [mig1] false ⟨[mig1]⟩ openFresh
    ⟨[1], ["e1"], [1], 2⟩ 0 1 (by decide) rfl (by decide) rfl

/-- C4: in every reachable database state the persisted marker equals the
version of the last successfully and fully applied migration, and in any
single run the database either stays unchanged or is produced by fully
applying all pending migrations' statements and then writing the marker as
the final operation of the atomic unit — the marker is never mutated outside
such a unit. -/
theorem marker_invariant :
    (∀ db, Reachable db → Tracker.read db = .ok (lastApplied db)) ∧
    (∀ db r out db', Runner.run db r = (out, db') →
      db' = db ∨ ∃ current db1 lastM,
        Tracker.read db = .ok current ∧
        (pendingFor r current).getLast? = some lastM ∧
        applyMigrations (pendingFor r current) db = .ok db1 ∧
        db' = Tracker.write db1 lastM.version ∧ out = .ok lastM.version) := by
  refine ⟨?_, run_shape⟩
  intro db hr
  induction hr with
  | base => rfl
  | step db ms b r out db' hreach hbuild hrun ih =>
    rcases run_shape db r out db' hrun with heq |
      ⟨current, db1, lastM, hread, hlast, happ, hdb', hout⟩
    · rw [heq]; exact ih
    · subst hdb'
      rw [read_after_write]
      have hlog := applyMigrations_ok_appliedLog happ
      have hpne : pendingFor r current ≠ [] :=
        List.ne_nil_of_mem (mem_of_getLast?_eq hlast)
      have hvne : versionsOf (pendingFor r current) ≠ [] := by
        simp [versionsOf, hpne]
      have hwlog : (Tracker.write db1 lastM.version).appliedLog
          = db1.appliedLog := rfl
      unfold lastApplied
      rw [hwlog, hlog, List.getLast?_append_of_ne_nil _ hvne,
        versionsOf, List.getLast?_map, hlast]
      rfl

/-- C4 witness: the fresh database is reachable and its marker (0) equals
the version of the last fully applied migration (none applied, so 0). -/
theorem marker_invariant_witness :
    Tracker.read openFresh = .ok (lastApplied openFresh) :=
  marker_invariant.1 openFresh Reachable.base

end PTA
